import Mathlib

/-!
Verification development for the yalo logging core (src/yalo/yalo.h).

The C++ source is shallowly embedded: strings are `List Char`, the
level-authorization table `std::map<Level, std::string>` is a total function
`Fin 8 → Option (List Char)` (absent key = `none`), timestamps are `Int`
seconds since the epoch (the code compares `duration_cast<seconds>` counts,
so second granularity is exact for the comparisons it performs), and the
sink pipeline is a list of sinks whose delivery behaviour (succeed, or throw
with a fixed `what()` text) is part of the sink value.
-/

namespace Yalo

/-- `enum Level` : Fatal = 0 .. Trace = 7, encoded as `Fin 8`. -/
abbrev Level : Type := Fin 8

def Fatal : Level := 0
def Log : Level := 1
def Error : Level := 2
def Warning : Level := 3
def Info : Level := 4
def Debug : Level := 5
def Verbose : Level := 6
def Trace : Level := 7

abbrev Pattern : Type := List Char

/-- `Logger::FileLevels = std::map<Level, std::string>` : a level either has a
pattern entry (`some`) or no entry (`none`). -/
abbrev FileLevels : Type := Level → Option Pattern

def emptyLevels : FileLevels := fun _ => none

/-- Write one key of the map (used for `levels[k] = v`, `erase`, and the
default-insertion performed by `std::map::operator[]`). -/
def setEntry (t : FileLevels) (k : Level) (v : Option Pattern) : FileLevels :=
  fun l => if l = k then v else t l

/-- `levels.size() == 0`. -/
def isEmptyLevels (t : FileLevels) : Bool :=
  decide (∀ l : Level, t l = none)

/-- `Logger::_levelsNeedsLock` : on access, an empty table is re-seeded with
the single entry `{Error: ""}`. -/
def levelsAccess (t : FileLevels) : FileLevels :=
  if isEmptyLevels t then setEntry emptyLevels Error (some []) else t

/-- The levels scanned by the `for (int index = start; index <= max; ...)`
loops: `start` up to `Trace`, in ascending order. -/
def levelsUpFrom (start : Level) : List Level :=
  (List.finRange 8).filter (fun l => decide (start ≤ l))

/-- `str.find(ch) == 0` specialised to lists: does `hay` start with `sub`? -/
def startsWith : List Char → List Char → Bool
  | _, [] => true
  | [], _ :: _ => false
  | c :: cs, d :: ds => c == d && startsWith cs ds

/-- `hay.find(sub) != std::string::npos` : `sub` occurs somewhere in `hay`
(recursion on `hay`, the second explicit argument). -/
def hasSubstring (sub : List Char) : List Char → Bool
  | [] => startsWith [] sub
  | c :: cs => startsWith (c :: cs) sub || hasSubstring sub cs

/-- The sequence of `';'`-separated segments that the
`while (start < pattern.size())` loop of `Logger::_fileMatches` visits:
each segment runs up to the next `';'` (`pattern.find(';', start)`), and a
final `';'` produces no further segment (the loop exits when
`start == pattern.size()`). -/
def splitSegs : List Char → List (List Char)
  | [] => []
  | c :: cs =>
    if c == ';' then [] :: splitSegs cs
    else
      match splitSegs cs with
      | [] => [[c]]
      | s :: ss => (c :: s) :: ss

/-- `splitSegs` agrees with the `find(';')` / `substr` decomposition the
source loop performs on each iteration. -/
theorem splitSegsEq : ∀ c : Char, ∀ cs : List Char,
    splitSegs (c :: cs) =
      ((c :: cs).takeWhile (fun ch => !(ch == ';'))) ::
        splitSegs (((c :: cs).dropWhile (fun ch => !(ch == ';'))).tail) := by
  intro c cs
  induction cs generalizing c with
  | nil =>
    by_cases h : c = ';'
    · subst h; simp [splitSegs, List.takeWhile, List.dropWhile]
    · have hb : (c == ';') = false := by simpa using h
      simp [splitSegs, List.takeWhile, List.dropWhile, hb]
  | cons d ds ih =>
    by_cases h : c = ';'
    · subst h; simp [splitSegs, List.takeWhile, List.dropWhile]
    · have hb : (c == ';') = false := by simpa using h
      rw [show splitSegs (c :: d :: ds) =
            (match splitSegs (d :: ds) with
              | [] => [[c]]
              | s :: ss => (c :: s) :: ss) by simp [splitSegs, hb]]
      rw [ih d]
      simp [List.takeWhile, List.dropWhile, hb]

/-- The body of the `while` loop of `Logger::_fileMatches`, iterated once
per segment, carrying the running verdict `good`: `negative` is
`part.find('-') == 0`, `name` drops the `'-'` prefix, and the verdict is
overwritten only when `file.find(name) != npos`. -/
def fileMatchesLoop (file : List Char) : List (List Char) → Bool → Bool
  | [], good => good
  | part :: rest, good =>
    let negative := part.head? == some '-'
    let name := if negative then part.tail else part
    let matched := hasSubstring name file
    fileMatchesLoop file rest (if matched then !negative else good)

/-- `Logger::_fileMatches(file, pattern)` : verdict initialised to `true`. -/
def fileMatches (file : List Char) (pattern : List Char) : Bool :=
  fileMatchesLoop file (splitSegs pattern) true

/-- `Logger::setLevel(level, pattern)` :
`levels[level] = pattern`, then for every level from `level` up to `Trace`,
`if (pattern == levels[lvl]) levels.erase(lvl)`.  Note that `levels[lvl]`
is `std::map::operator[]`, which default-inserts an empty pattern when the
key is absent. -/
def setLevel (level : Level) (pattern : Pattern) (t0 : FileLevels) : FileLevels :=
  let levels0 := levelsAccess t0
  let levels1 := setEntry levels0 level (some pattern)
  (levelsUpFrom level).foldl
    (fun t lvl =>
      let looked : FileLevels × Pattern :=
        match t lvl with
        | some q => (t, q)
        | none => (setEntry t lvl (some []), [])
      if looked.2 = pattern then setEntry looked.1 lvl none else looked.1)
    levels1

/-- `Logger::resetLevels(level)` : clear the table, install `{level: ""}`. -/
def resetLevels (level : Level) (t0 : FileLevels) : FileLevels :=
  let _levels := levelsAccess t0
  let cleared : FileLevels := fun _ => none
  setEntry cleared level (some [])

/-- `Logger::shown(loggedLevel, file)` : scan levels from `loggedLevel` to
`Trace`; return true on the first present entry whose pattern matches. -/
def shown (loggedLevel : Level) (file : List Char) (t0 : FileLevels) : Bool :=
  let levels := levelsAccess t0
  (levelsUpFrom loggedLevel).any (fun lvl =>
    match levels lvl with
    | none => false
    | some pat => fileMatches file pat)

/-- A reference installer following the specification words for the claim
comparing the collapse step against plain installation: it "only installs
`{L: P}` without the collapse step" (the table is still accessed through
`_levelsNeedsLock`, i.e. re-seeded when empty). -/
def setLevelSpecRef (level : Level) (pattern : Pattern) (t0 : FileLevels) : FileLevels :=
  setEntry (levelsAccess t0) level (some pattern)

/-- One sink of the pipeline.  `sid` identifies the sink, `tag` is
`typeid(*sink).name()`, `fails` says whether `sink->log(...)` throws, and
`what` is the thrown exception's `what()` text. -/
structure Sink where
  sid : Nat
  tag : List Char
  fails : Bool
  what : List Char
deriving DecidableEq

/-- `Logger::addSink(method)` : `if (method) { sinks.push_back(method); }` —
a null handle is ignored. -/
def addSink (method : Option Sink) (sinks : List Sink) : List Sink :=
  match method with
  | some s => sinks ++ [s]
  | none => sinks

/-- The eviction pass of `Logger::_logLineCore` : each sink is tried in
order with the formatted line; a throwing sink is erased without advancing
past its slot, and `(formatter->format(exception), typeid name)` is
captured.  Returns (surviving sinks, captured failures in encounter order,
successful deliveries as (sink id, delivered line)). -/
def dispatchPass (formattedLine : List Char) (fmtErr : List Char → List Char) :
    List Sink → List Sink × List (List Char × List Char) × List (Nat × List Char)
  | [] => ([], [], [])
  | s :: rest =>
    let r := dispatchPass formattedLine fmtErr rest
    if s.fails then
      (r.1, (fmtErr s.what, s.tag) :: r.2.1, r.2.2)
    else
      (s :: r.1, r.2.1, (s.sid, formattedLine) :: r.2.2)

/-- The synthesized failure-report text
`"Logger[" + sink-type-tag + "]: " + formatted-error-description`. -/
def reportLine (failure : List Char × List Char) : List Char :=
  "Logger[".toList ++ failure.2 ++ "]: ".toList ++ failure.1

/-- `Logger::_logLineCore(logLine)` : format the line; if the sink list is
empty append a default stderr sink; run the eviction pass; if the list is
empty again append a default stderr sink; then attempt to deliver every
captured failure's report line to every remaining sink, swallowing
second-order failures (a failing sink simply does not receive the report
and is not evicted).  `fmtLine` is the installed formatter's line
formatting, `fmtErr` its exception formatting, `defaultSink` the behaviour
of a freshly constructed `StdErrSink`.  Returns (final sink list, all
successful deliveries as (sink id, delivered line)). -/
def logLineCore (fmtLine : List Char → List Char) (fmtErr : List Char → List Char)
    (defaultSink : Sink) (sinks0 : List Sink) (logLine : List Char) :
    List Sink × List (Nat × List Char) :=
  let formatted := fmtLine logLine
  let sinks1 := if sinks0.isEmpty then [defaultSink] else sinks0
  let pass := dispatchPass formatted fmtErr sinks1
  let sinks2 := if pass.1.isEmpty then [defaultSink] else pass.1
  let reports := pass.2.1.foldr
    (fun failure acc =>
      (sinks2.filterMap fun s =>
        if s.fails then none else some (s.sid, fmtLine (reportLine failure))) ++ acc)
    []
  (sinks2, pass.2.2 ++ reports)

/-- The guard of `Logger::~Logger()` : the record is finalized (flushed via
`log_line`) unless `levelRequested != Fatal && (!_doLog || _stream.empty())`. -/
def finalizes (levelRequested : Level) (doLog : Bool) (stream : List Char) : Bool :=
  !(decide (levelRequested ≠ Fatal) && (!doLog || stream.isEmpty))

/-- The `::abort()` condition of `Logger::~Logger()` : reached only when the
destructor did not return early, and fires when `_doLog && levelRequested == Fatal`. -/
def terminatesProcess (levelRequested : Level) (doLog : Bool) (stream : List Char) : Bool :=
  finalizes levelRequested doLog stream && (doLog && decide (levelRequested = Fatal))

/-- `Logger::logExpression(flow, expression, result)` : the argument handed
to `log_line` together with the returned value; `render` stands for
`std::to_string` at the instantiated type. -/
def logExpression {α : Type} (render : α → List Char) (flow expression : List Char)
    (result : α) : List Char × α :=
  (flow ++ ": ".toList ++ expression ++ " => ".toList ++ render result, result)

/-- The boolean rendering used by `Logger::logExpressionBool` :
`result ? "true" : "false"`. -/
def renderBool (result : Bool) : List Char :=
  if result then "true".toList else "false".toList

/-- `Logger::logExpressionBool(flow, expression, result)` : the argument
handed to `log_line` together with the returned value. -/
def logExpressionBool (flow expression : List Char) (result : Bool) : List Char × Bool :=
  (flow ++ ": ".toList ++ expression ++ " => ".toList ++
    (if result then "true".toList else "false".toList), result)

/-- The settings cache of `Logger::_settingsContents` : watched path, last
seen contents, timestamp of the last check (seconds since the epoch;
`Timestamp()` is the epoch, i.e. `0`), minimum re-check interval. -/
structure SettingsState where
  path : List Char
  lastContents : List Char
  lastCheck : Int
  interval : Int
deriving DecidableEq

/-- The static initial state : no path, no contents, `lastCheck` at the
epoch, `interval = 120`. -/
def initialSettings : SettingsState :=
  { path := [], lastContents := [], lastCheck := 0, interval := 120 }

/-- `Logger::_settingsContents(newPath, checkIntervalSeconds)` at time
`now`, where `disk` is what `_readFile(path)` would return (`""` when the
resource is unreadable).  A non-empty `newPath` records path and interval
and resets `lastCheck` to the epoch only when the path actually changed;
then the resource is read only when at least `interval` seconds have
elapsed since `lastCheck`, and only changed, non-empty contents are
returned. -/
def settingsContents (st : SettingsState) (newPath : List Char)
    (checkIntervalSeconds : Int) (now : Int) (disk : List Char) :
    List Char × SettingsState :=
  let pathChanged := !newPath.isEmpty && decide (newPath ≠ st.path)
  let st1 := if newPath.isEmpty then st else
    { st with path := newPath, interval := checkIntervalSeconds,
              lastCheck := if pathChanged then 0 else st.lastCheck }
  if st1.path.isEmpty then ([], st1)
  else
    let seconds := now - st1.lastCheck
    if st1.interval ≤ seconds then
      let st2 := { st1 with lastCheck := now }
      if disk.isEmpty || decide (disk = st2.lastContents) then ([], st2)
      else (disk, { st2 with lastContents := disk })
    else ([], st1)

/-! ## Helper lemmas -/

theorem hasSubstringOfNilSub : ∀ hay : List Char, hasSubstring [] hay = true
  | [] => rfl
  | _ :: _ => rfl

theorem fileMatchesNil (file : List Char) : fileMatches file [] = true := rfl

theorem fileMatchesDash (file : List Char) : fileMatches file ('-' :: []) = false := by
  simp [fileMatches, splitSegs, fileMatchesLoop, hasSubstringOfNilSub]

theorem memLevelsUpFrom (start l2 : Level) : l2 ∈ levelsUpFrom start ↔ start ≤ l2 := by
  simp [levelsUpFrom, List.mem_filter, List.mem_finRange]

theorem leTrace (l : Level) : l ≤ Trace := by
  rw [Fin.le_def]
  exact Nat.lt_succ_iff.mp l.isLt

theorem levelsAccessOfEmpty {t : FileLevels} (h : isEmptyLevels t = true) :
    levelsAccess t = setEntry emptyLevels Error (some []) := by
  simp [levelsAccess, h]

theorem levelsAccessOfNonempty {t : FileLevels} (h : isEmptyLevels t = false) :
    levelsAccess t = t := by
  simp [levelsAccess, h]

theorem isEmptyLevelsAccess (t : FileLevels) : isEmptyLevels (levelsAccess t) = false := by
  cases h : isEmptyLevels t with
  | false => rw [levelsAccessOfNonempty h, h]
  | true => rw [levelsAccessOfEmpty h]; decide

theorem shownIffAux (t0 : FileLevels) (stmtLevel : Level) (file : List Char) :
    shown stmtLevel file t0 = true ↔
      ∃ l2 : Level, stmtLevel ≤ l2 ∧
        ∃ pat, levelsAccess t0 l2 = some pat ∧ fileMatches file pat = true := by
  simp only [shown, List.any_eq_true]
  constructor
  · rintro ⟨l2, hmem, hpred⟩
    have hle : stmtLevel ≤ l2 := (memLevelsUpFrom stmtLevel l2).mp hmem
    cases hacc : levelsAccess t0 l2 with
    | none => rw [hacc] at hpred; exact absurd hpred (by simp)
    | some pat =>
      rw [hacc] at hpred
      exact ⟨l2, hle, pat, hacc, hpred⟩
  · rintro ⟨l2, hle, pat, hacc, hmatch⟩
    exact ⟨l2, (memLevelsUpFrom stmtLevel l2).mpr hle, by rw [hacc]; exact hmatch⟩

theorem resetLevelsEq (capLevel : Level) (t0 : FileLevels) :
    resetLevels capLevel t0 = setEntry (fun _ => none) capLevel (some []) := rfl

theorem shownResetAux (t0 : FileLevels) (capLevel stmtLevel : Level) (file : List Char) :
    shown stmtLevel file (resetLevels capLevel t0) = decide (stmtLevel ≤ capLevel) := by
  have hne : isEmptyLevels (resetLevels capLevel t0) = false := by
    rw [resetLevelsEq]
    apply decide_eq_false
    intro hall
    have := hall capLevel
    simp [setEntry] at this
  by_cases hle : stmtLevel ≤ capLevel
  · rw [decide_eq_true hle]
    apply List.any_eq_true.mpr
    refine ⟨capLevel, (memLevelsUpFrom stmtLevel capLevel).mpr hle, ?_⟩
    rw [levelsAccessOfNonempty hne, resetLevelsEq]
    simp [setEntry, fileMatchesNil]
  · rw [decide_eq_false hle]
    apply List.any_eq_false.mpr
    intro l2 hmem
    have hl2 : stmtLevel ≤ l2 := (memLevelsUpFrom stmtLevel l2).mp hmem
    rw [levelsAccessOfNonempty hne, resetLevelsEq]
    have : l2 ≠ capLevel := by
      intro he
      exact hle (he ▸ hl2)
    simp [setEntry, this]

/-- Following the claim's wording: a segment whose un-prefixed substring
occurs in the file path sets the verdict to `false` if the segment is
`'-'`-prefixed and to `true` otherwise; a segment whose substring does not
occur leaves the verdict unchanged. -/
def segVerdictSpec (file : List Char) (good : Bool) (seg : List Char) : Bool :=
  let negated := seg.head? == some '-'
  let sub := if negated then seg.tail else seg
  if hasSubstring sub file then (if negated then false else true) else good

theorem fileMatchesLoopFoldl (file : List Char) :
    ∀ (segs : List (List Char)) (good : Bool),
      fileMatchesLoop file segs good = segs.foldl (segVerdictSpec file) good := by
  intro segs
  induction segs with
  | nil => intro good; rfl
  | cons part rest ih =>
    intro good
    rw [List.foldl_cons, ← ih]
    show fileMatchesLoop file rest _ = fileMatchesLoop file rest _
    congr 1
    simp only [segVerdictSpec]
    cases hneg : part.head? == some '-' <;> simp [hneg]

/-! ## Claim theorems -/

/-- C1: the claim states that after `setLevel(V, "name.ext")` a statement at
level ≤ V from a file containing `"name.ext"` is shown and one from an
unrelated file matching no cap is not.  The code violates it: the
duplicate-collapse loop starts at the level just set, so the freshly
installed entry is erased at once (at `V = Trace` the matching file is
refused), and `std::map::operator[]` default-inserts empty match-all
patterns at every absent level above `V` (so at `V = Debug` an unrelated
file is accepted). -/
theorem setLevelPatternCapBug :
    shown Trace "dir/name.ext".toList (setLevel Trace "name.ext".toList emptyLevels) = false ∧
    shown Debug "other.cpp".toList (setLevel Debug "name.ext".toList emptyLevels) = true := by
  constructor
  · decide
  · decide

/-- C2: the claim states that the duplicate-collapse step of `setLevel`
leaves every subsequent `shown` query unchanged compared to installing
`{L: P}` alone.  It does not: with the collapse, `setLevel(Trace,
"name.ext")` erases the entry it just installed, so a Trace statement from
a matching file is refused, while the plain installation accepts it. -/
theorem setLevelCollapseChangesQueries :
    shown Trace "src/name.ext".toList (setLevel Trace "name.ext".toList emptyLevels) = false ∧
    shown Trace "src/name.ext".toList (setLevelSpecRef Trace "name.ext".toList emptyLevels) = true := by
  constructor
  · decide
  · decide

/-- C3: `shown(level, file)` is true iff some level `l2` with
`level ≤ l2 ≤ Trace` has an entry (in the table as re-seeded on access)
whose pattern matches `file`; consequently, after `resetLevels(L)`, a
statement at level `L2` for any file is authorized iff `L2 ≤ L`. -/
theorem shownScanCharacterization :
    (∀ (t0 : FileLevels) (stmtLevel : Level) (file : List Char),
      shown stmtLevel file t0 = true ↔
        ∃ l2 : Level, stmtLevel ≤ l2 ∧ l2 ≤ Trace ∧
          ∃ pat, levelsAccess t0 l2 = some pat ∧ fileMatches file pat = true) ∧
    (∀ (t0 : FileLevels) (capLevel stmtLevel : Level) (file : List Char),
      shown stmtLevel file (resetLevels capLevel t0) = decide (stmtLevel ≤ capLevel)) := by
  constructor
  · intro t0 stmtLevel file
    rw [shownIffAux]
    constructor
    · rintro ⟨l2, hle, rest⟩
      exact ⟨l2, hle, leTrace l2, rest⟩
    · rintro ⟨l2, hle, _, rest⟩
      exact ⟨l2, hle, rest⟩
  · exact shownResetAux

/-- C5: a record whose level is `Fatal` is finalized unconditionally; any
other level finalizes only when `doLog` is set and the buffer is non-empty;
the process terminates exactly for a `Fatal` record with `doLog` set, and a
`Fatal` record with `doLog` unset still flushes without terminating. -/
theorem fatalFinalizePolicy :
    (∀ (doLog : Bool) (stream : List Char), finalizes Fatal doLog stream = true) ∧
    (∀ (level : Level) (doLog : Bool) (stream : List Char), level ≠ Fatal →
      finalizes level doLog stream = (doLog && !stream.isEmpty)) ∧
    (∀ (level : Level) (doLog : Bool) (stream : List Char),
      terminatesProcess level doLog stream = (doLog && decide (level = Fatal))) ∧
    (∀ stream : List Char,
      finalizes Fatal false stream = true ∧ terminatesProcess Fatal false stream = false) := by
  have h1 : ∀ (doLog : Bool) (stream : List Char), finalizes Fatal doLog stream = true := by
    intro doLog stream
    simp [finalizes]
  have h3 : ∀ (level : Level) (doLog : Bool) (stream : List Char),
      terminatesProcess level doLog stream = (doLog && decide (level = Fatal)) := by
    intro level doLog stream
    by_cases hl : level = Fatal
    · subst hl
      rw [terminatesProcess, h1]
      simp
    · rw [terminatesProcess, decide_eq_false hl]
      simp
  refine ⟨h1, ?_, h3, ?_⟩
  · intro level doLog stream h
    have hd : decide (level ≠ Fatal) = true := decide_eq_true h
    rw [finalizes, hd]
    cases doLog <;> cases hs : stream.isEmpty <;> simp [hs]
  · intro stream
    refine ⟨h1 false stream, ?_⟩
    rw [h3]
    simp

/-- C5 witness. -/
theorem fatalFinalizePolicyInstance :
    Warning ≠ Fatal ∧
    finalizes Warning true ('x' :: []) = (true && !(('x' :: []) : List Char).isEmpty) :=
  ⟨by decide, fatalFinalizePolicy.2.1 Warning true ('x' :: []) (by decide)⟩

/-- C6: `_fileMatches` evaluates the `';'`-separated segments left to right
with a running verdict initialised to `true`, each occurring segment
overwriting the verdict (`false` when `'-'`-prefixed, `true` otherwise)
and each non-occurring segment leaving it unchanged; the empty pattern
matches every file and the single pattern `"-"` matches no file. -/
theorem fileMatchesSegmentSemantics :
    (∀ (file pattern : List Char),
      fileMatches file pattern = (splitSegs pattern).foldl (segVerdictSpec file) true) ∧
    (∀ file : List Char, fileMatches file [] = true) ∧
    (∀ file : List Char, fileMatches file ('-' :: []) = false) := by
  refine ⟨?_, fileMatchesNil, fileMatchesDash⟩
  intro file pattern
  exact fileMatchesLoopFoldl file (splitSegs pattern) true

/-- C8: the expression tracer returns the traced value unchanged and hands
`log_line` exactly the line `<flow>: <expression> => <value>`, booleans
rendered as the literals `true` and `false`. -/
theorem logExpressionTransparency :
    (∀ (α : Type) (render : α → List Char) (flow expression : List Char) (v : α),
      (logExpression render flow expression v).2 = v ∧
      (logExpression render flow expression v).1 =
        flow ++ ": ".toList ++ expression ++ " => ".toList ++ render v) ∧
    (∀ (flow expression : List Char) (b : Bool),
      logExpressionBool flow expression b = logExpression renderBool flow expression b ∧
      (logExpressionBool flow expression b).2 = b) :=
  ⟨fun _ _ _ _ _ => ⟨rfl, rfl⟩, fun _ _ _ => ⟨rfl, rfl⟩⟩

/-- C9: every table access re-seeds an empty table with `{Error: ""}`, so no
query observes an empty table; `setLevel(Error, "")` erases every entry, yet
the very next `shown(Error, file)` query is authorized again through the
re-seeded default cap. -/
theorem levelsReseedInvariant :
    (∀ t : FileLevels, isEmptyLevels t = true →
      levelsAccess t = setEntry emptyLevels Error (some [])) ∧
    (∀ t : FileLevels, isEmptyLevels (levelsAccess t) = false) ∧
    isEmptyLevels (setLevel Error [] emptyLevels) = true ∧
    (∀ file : List Char, shown Error file (setLevel Error [] emptyLevels) = true) := by
  refine ⟨fun t h => levelsAccessOfEmpty h, isEmptyLevelsAccess, by decide, ?_⟩
  intro file
  apply List.any_eq_true.mpr
  refine ⟨Error, by decide, ?_⟩
  have h : levelsAccess (setLevel Error [] emptyLevels) = setEntry emptyLevels Error (some []) :=
    levelsAccessOfEmpty (by decide)
  rw [h]
  simp [setEntry, fileMatchesNil]

/-- C9 witness. -/
theorem levelsReseedInvariantInstance :
    isEmptyLevels emptyLevels = true ∧
    levelsAccess emptyLevels = setEntry emptyLevels Error (some []) :=
  ⟨by decide, levelsReseedInvariant.1 emptyLevels (by decide)⟩

/-- C10: `addSink` ignores a null sink handle, leaving the sink list
unchanged, and appends a non-null handle at the back. -/
theorem addSinkNullIgnored :
    (∀ sinks : List Sink, addSink none sinks = sinks) ∧
    (∀ (s : Sink) (sinks : List Sink), addSink (some s) sinks = sinks ++ [s]) :=
  ⟨fun _ => rfl, fun _ _ => rfl⟩

theorem dispatchPassSurv (fl : List Char) (fe : List Char → List Char) :
    ∀ l : List Sink, (dispatchPass fl fe l).1 = l.filter (fun s => !s.fails)
  | [] => rfl
  | s :: rest => by
    cases hf : s.fails <;>
      simp [dispatchPass, hf, List.filter_cons, dispatchPassSurv fl fe rest]

theorem dispatchPassFailures (fl : List Char) (fe : List Char → List Char) :
    ∀ l : List Sink,
      (dispatchPass fl fe l).2.1 =
        (l.filter (fun s => s.fails)).map (fun s => (fe s.what, s.tag))
  | [] => rfl
  | s :: rest => by
    cases hf : s.fails <;>
      simp [dispatchPass, hf, List.filter_cons, dispatchPassFailures fl fe rest]

theorem dispatchPassDeliveries (fl : List Char) (fe : List Char → List Char) :
    ∀ l : List Sink,
      (dispatchPass fl fe l).2.2 =
        (l.filter (fun s => !s.fails)).map (fun s => (s.sid, fl))
  | [] => rfl
  | s :: rest => by
    cases hf : s.fails <;>
      simp [dispatchPass, hf, List.filter_cons, dispatchPassDeliveries fl fe rest]

theorem memFoldrAppend {α β : Type} (g : α → List β) :
    ∀ (l : List α) (a : α) (b : β), a ∈ l → b ∈ g a →
      b ∈ l.foldr (fun x acc => g x ++ acc) [] := by
  intro l
  induction l with
  | nil => intro a b ha _; exact absurd ha (List.not_mem_nil a)
  | cons h t ih =>
    intro a b ha hb
    rcases List.mem_cons.mp ha with he | ht
    · subst he
      exact List.mem_append_left _ hb
    · exact List.mem_append_right _ (ih a b ht hb)

/-- C4: every flush of `_logLineCore` ends with a non-empty sink list, the
surviving sinks are exactly the non-failing ones in order (a fresh default
stderr sink replacing an emptied list), every non-failing sink of the
dispatched list receives the formatted line, and every failing sink's
captured `(error description, type tag)` is reported to every surviving
non-failing sink; hence one failing sink never prevents delivery to the
others. -/
theorem logLineCoreDispatchGuarantees
    (fmtLine fmtErr : List Char → List Char) (d : Sink) (sinks0 : List Sink)
    (line : List Char) :
    (logLineCore fmtLine fmtErr d sinks0 line).1 ≠ [] ∧
    (logLineCore fmtLine fmtErr d sinks0 line).1 =
      (if (((if sinks0.isEmpty then [d] else sinks0).filter (fun s => !s.fails)).isEmpty)
        then [d]
        else ((if sinks0.isEmpty then [d] else sinks0).filter (fun s => !s.fails))) ∧
    (∀ s : Sink, s ∈ (if sinks0.isEmpty then [d] else sinks0) → s.fails = false →
      (s.sid, fmtLine line) ∈ (logLineCore fmtLine fmtErr d sinks0 line).2) ∧
    (∀ s : Sink, s ∈ (if sinks0.isEmpty then [d] else sinks0) → s.fails = true →
      ∀ s2 : Sink, s2 ∈ (logLineCore fmtLine fmtErr d sinks0 line).1 → s2.fails = false →
        (s2.sid, fmtLine (reportLine (fmtErr s.what, s.tag))) ∈
          (logLineCore fmtLine fmtErr d sinks0 line).2) := by
  refine ⟨?_, ?_, ?_, ?_⟩
  · simp only [logLineCore, dispatchPassSurv]
    cases hL : ((if sinks0.isEmpty then [d] else sinks0).filter (fun s => !s.fails)) with
    | nil => simp
    | cons a t => simp
  · simp only [logLineCore, dispatchPassSurv]
  · intro s hs hfail
    simp only [logLineCore, dispatchPassSurv, dispatchPassFailures, dispatchPassDeliveries]
    apply List.mem_append_left
    exact List.mem_map.mpr ⟨s, List.mem_filter.mpr ⟨hs, by simp [hfail]⟩, rfl⟩
  · intro s hs hfail s2 hs2 hs2fail
    simp only [logLineCore, dispatchPassSurv] at hs2
    simp only [logLineCore, dispatchPassSurv, dispatchPassFailures, dispatchPassDeliveries]
    apply List.mem_append_right
    apply memFoldrAppend _ _ (fmtErr s.what, s.tag)
    · apply List.mem_map.mpr
      exact ⟨s, List.mem_filter.mpr ⟨hs, by simp [hfail]⟩, rfl⟩
    · apply List.mem_filterMap.mpr
      exact ⟨s2, hs2, by simp [hs2fail]⟩

/-- C4 witness: three sinks, the second always failing; identity formatter. -/
theorem logLineCoreDispatchGuaranteesInstance :
    (⟨1, "a".toList, false, []⟩ : Sink) ∈
        [(⟨1, "a".toList, false, []⟩ : Sink), ⟨2, "b".toList, true, "boom".toList⟩,
          ⟨3, "c".toList, false, []⟩] ∧
    ((1 : Nat), "hello".toList) ∈
      (logLineCore id id ⟨0, "stderr".toList, false, []⟩
        [⟨1, "a".toList, false, []⟩, ⟨2, "b".toList, true, "boom".toList⟩,
          ⟨3, "c".toList, false, []⟩] "hello".toList).2 := by
  refine ⟨by decide, ?_⟩
  have h := (logLineCoreDispatchGuarantees id id ⟨0, "stderr".toList, false, []⟩
    [⟨1, "a".toList, false, []⟩, ⟨2, "b".toList, true, "boom".toList⟩,
      ⟨3, "c".toList, false, []⟩] "hello".toList).2.2.1
      ⟨1, "a".toList, false, []⟩ (by decide) (by decide)
  simpa using h

/-- C7 counterexample: watching `"a.txt"` (interval 10) at time 1000 reads
the resource; re-setting the SAME path at time 1005 leaves `lastCheck` at
1000 (the code resets it only when the path changed) and returns nothing,
and the very next reload check at time 1006 still does not read the changed
resource — the claim says every set call resets the timestamp so that the
next check reads immediately. -/
theorem settingsRewatchSamePathNoReset :
    ((settingsContents initialSettings "a.txt".toList 10 1000 "old".toList).1 = "old".toList ∧
      (settingsContents initialSettings "a.txt".toList 10 1000 "old".toList).2.lastCheck = 1000) ∧
    (settingsContents
        (settingsContents initialSettings "a.txt".toList 10 1000 "old".toList).2
        "a.txt".toList 10 1005 "new".toList).2.lastCheck = 1000 ∧
    (settingsContents
        (settingsContents initialSettings "a.txt".toList 10 1000 "old".toList).2
        "a.txt".toList 10 1005 "new".toList).1 = [] ∧
    (settingsContents
        (settingsContents
            (settingsContents initialSettings "a.txt".toList 10 1000 "old".toList).2
            "a.txt".toList 10 1005 "new".toList).2
        [] 0 1006 "new".toList).1 = [] := by
  refine ⟨⟨?_, ?_⟩, ?_, ?_, ?_⟩ <;> decide

/-- C7 amended: a `setWatchTarget`/`setSettingsFile` call with a non-empty
path always records the path and interval; the last-check timestamp is
reset (so the check fires immediately) only when the path differs from the
currently watched one, while re-setting the same path keeps the previous
timestamp, so the next check still waits out the interval measured from the
previous check. -/
theorem settingsWatchRecordAndReset (st : SettingsState) (p : List Char)
    (ck now : Int) (disk : List Char) (hp : p ≠ []) :
    ((settingsContents st p ck now disk).2.path = p ∧
      (settingsContents st p ck now disk).2.interval = ck) ∧
    (p ≠ st.path → ck ≤ now → disk ≠ [] → disk ≠ st.lastContents →
      (settingsContents st p ck now disk).1 = disk) ∧
    (p = st.path → now - st.lastCheck < ck →
      (settingsContents st p ck now disk).1 = [] ∧
      (settingsContents st p ck now disk).2.lastCheck = st.lastCheck) := by
  have hpe : p.isEmpty = false := by
    cases p with
    | nil => exact absurd rfl hp
    | cons c cs => rfl
  refine ⟨?_, ?_, ?_⟩
  · simp [settingsContents, hpe]
    split_ifs <;> exact ⟨rfl, rfl⟩
  · intro hne hck hd hdc
    simp [settingsContents, hpe, hne, hck, hd, hdc]
  · intro hsame hwait
    have hnotle : ¬(ck ≤ now - st.lastCheck) := not_le.mpr hwait
    have hstp : st.path ≠ [] := hsame ▸ hp
    simp [settingsContents, hpe, hsame, hstp, hnotle]

/-- C7 witness. -/
theorem settingsWatchRecordAndResetInstance :
    "a.txt".toList ≠ ([] : List Char) ∧
    (settingsContents initialSettings "a.txt".toList 10 1000 "old".toList).1 = "old".toList :=
  ⟨by decide,
    (settingsWatchRecordAndReset initialSettings "a.txt".toList 10 1000 "old".toList
      (by decide)).2.1 (by decide) (by decide) (by decide) (by decide)⟩

end Yalo
